import Mathlib

/-!
Verification of the fleet-management backend: a shallow embedding of the
vendor-hierarchy service, the vehicle/driver assignment handlers, the
compliance aggregation and the document-expiry utilities, with theorems
checking the specification sentences against the embedded code.

Conventions of the embedding:
- MongoDB collections are lists of records; ObjectIds are natural numbers.
- Dates are integers (milliseconds since the epoch), as JavaScript Date
  values compare by their millisecond timestamp.
- Async handlers are pure functions from an explicit state to a result and
  an updated state; an unbounded recursion is given an explicit fuel
  parameter and returns none when the fuel runs out, so that divergence of
  the original recursion is visible as failure at every fuel.
-/

namespace FleetSpec

/-- Vendor types, the vendorType enum of src/models/Vendor.js. -/
inductive VendorType where
  | SUPER
  | REGIONAL
  | CITY
  | SUB
  | LOCAL
deriving DecidableEq

/-- A vendor record: the fields of the Vendor model used by the hierarchy
service (id, vendorType, parentVendor). -/
structure Vendor where
  id : Nat
  vendorType : VendorType
  parentVendor : Option Nat
deriving DecidableEq

/-- Vendor.findById on a list-embedded collection. -/
def findById (store : List Vendor) (i : Nat) : Option Vendor :=
  store.find? (fun v => v.id == i)

/-- The switch statement of validateHierarchy in
src/services/vendorHierarchyService.js, keyed on the parent type:
SUPER allows a CITY child, CITY allows SUB or LOCAL, SUB allows LOCAL,
every other parent type (the default branch) allows nothing. -/
def validateHierarchyTypes (parentType childType : VendorType) : Bool :=
  match parentType with
  | .SUPER => childType == .CITY
  | .CITY => childType == .SUB || childType == .LOCAL
  | .SUB => childType == .LOCAL
  | _ => false

/-- validateHierarchy(vendorId, parentVendorId) of
src/services/vendorHierarchyService.js: looks up both vendors, returns
false if either is missing, otherwise applies the type switch. -/
def validateHierarchy (store : List Vendor) (vendorId parentVendorId : Nat) : Bool :=
  match findById store vendorId, findById store parentVendorId with
  | some vendor, some parentVendor =>
      validateHierarchyTypes parentVendor.vendorType vendor.vendorType
  | _, _ => false

/-- The five vendor types as a list, for counting type pairs. -/
def allVendorTypes : List VendorType :=
  [.SUPER, .REGIONAL, .CITY, .SUB, .LOCAL]

/-- All 25 ordered pairs (parentType, childType). -/
def allTypePairs : List (VendorType × VendorType) :=
  allVendorTypes.flatMap (fun p => allVendorTypes.map (fun c => (p, c)))

namespace DocumentUtils

/-- Milliseconds in a day, the 1000 * 60 * 60 * 24 constant of
src/utils/documentUtils.js. -/
def msPerDay : Int := 86400000

/-- Ceiling of the exact rational quotient a / b for b positive, the value
Math.ceil(a / b) computes (the floating-point division is exact enough on
the JavaScript Date range that the ceiling of the float equals the ceiling
of the exact quotient). -/
def ceilDiv (a b : Int) : Int := (a + b - 1) / b

/-- isDocumentExpired of src/utils/documentUtils.js: today > expiry. -/
def isDocumentExpired (expiryDate now : Int) : Bool :=
  now > expiryDate

/-- isDocumentExpiringSoon of src/utils/documentUtils.js: the day count
Math.ceil((expiry - today) / msPerDay) is positive and at most days. -/
def isDocumentExpiringSoon (expiryDate now days : Int) : Bool :=
  let diffTime := expiryDate - now
  let diffDays := ceilDiv diffTime msPerDay
  decide (diffDays ≤ days) && decide (diffDays > 0)

end DocumentUtils

/-- Entity types of the normalized Document model. -/
inductive EntityType where
  | VEHICLE
  | DRIVER
  | VENDOR
deriving DecidableEq

/-- A normalized document record (src/models/Document.js), restricted to
the fields the compliance logic reads. -/
structure DocumentR where
  entityId : Nat
  entityType : EntityType
  isVerified : Bool
  expiryDate : Option Int
deriving DecidableEq

/-- A vehicle record, restricted to the fields the compliance report and
the assignment handlers read. -/
structure VehicleR where
  id : Nat
  vendor : Nat
  assignedDriver : Option Nat
deriving DecidableEq

/-- A driver record, restricted to the fields the compliance report and
the assignment handlers read. -/
structure DriverR where
  id : Nat
  vendor : Nat
  assignedVehicle : Option Nat
deriving DecidableEq

namespace DocumentService

/-- isDocumentExpired of src/services/documentService.js: a document with
no expiry date is not expired, otherwise expiry strictly before now. -/
def isDocumentExpired (d : DocumentR) (now : Int) : Bool :=
  match d.expiryDate with
  | some e => e < now
  | none => false

/-- isEntityCompliant of src/services/documentService.js: filters the
document list to the entity, and requires a nonempty result all of whose
elements are verified and not expired. -/
def isEntityCompliant (entityId : Nat) (documents : List DocumentR) (now : Int) : Bool :=
  let entityDocs := documents.filter (fun d => d.entityId == entityId)
  decide (entityDocs.length > 0) &&
    entityDocs.all (fun d => d.isVerified && !(isDocumentExpired d now))

/-- Total / compliant / nonCompliant counters of the vendor compliance
report. -/
structure ComplianceCounts where
  total : Nat
  compliant : Nat
  nonCompliant : Nat
deriving DecidableEq

/-- The vendor compliance report value: counts for vehicles and for
drivers, nothing else. -/
structure ComplianceReport where
  vehicles : ComplianceCounts
  drivers : ComplianceCounts
deriving DecidableEq

/-- getVendorComplianceReport of src/services/documentService.js (the
compute path, taken on a cache miss): select the vendor vehicles and
drivers, select their documents from the Document collection, and count
each group with the isEntityCompliant predicate and its negation. -/
def getVendorComplianceReport (vehicles : List VehicleR) (drivers : List DriverR)
    (documents : List DocumentR) (vendorId : Nat) (now : Int) : ComplianceReport :=
  let vs := vehicles.filter (fun v => v.vendor == vendorId)
  let ds := drivers.filter (fun d => d.vendor == vendorId)
  let vehicleIds := vs.map (fun v => v.id)
  let driverIds := ds.map (fun d => d.id)
  let vehicleDocs := documents.filter
    (fun d => vehicleIds.contains d.entityId && d.entityType == .VEHICLE)
  let driverDocs := documents.filter
    (fun d => driverIds.contains d.entityId && d.entityType == .DRIVER)
  { vehicles :=
      { total := vs.length
        compliant := (vs.filter (fun v => isEntityCompliant v.id vehicleDocs now)).length
        nonCompliant := (vs.filter (fun v => !(isEntityCompliant v.id vehicleDocs now))).length }
    drivers :=
      { total := ds.length
        compliant := (ds.filter (fun d => isEntityCompliant d.id driverDocs now)).length
        nonCompliant := (ds.filter (fun d => !(isEntityCompliant d.id driverDocs now))).length } }

end DocumentService

/-- An embedded sub-document of the legacy Vehicle / Driver models
(registrationCertificate, permit, drivingLicense, and so on), restricted
to the fields the legacy compliance check reads. The list stands for
Object.values of the documents object. -/
structure EmbeddedDoc where
  isVerified : Bool
  expiryDate : Int
deriving DecidableEq

namespace VendorController

/-- The per-entity compliant predicate of getComplianceReports in
src/controllers/vendorController.js: every embedded document is verified
with an expiry date strictly after now (vacuously true on an empty
documents object). -/
def legacyEntityCompliant (docs : List EmbeddedDoc) (now : Int) : Bool :=
  docs.all (fun d => d.isVerified && decide (d.expiryDate > now))

end VendorController

/-- The concrete compliance scenario: a vendor with two vehicles, one with
a verified unexpired document and one with an expired document. -/
def scenarioVehicles : List VehicleR :=
  [{ id := 10, vendor := 1, assignedDriver := none },
   { id := 11, vendor := 1, assignedDriver := none }]

/-- Documents for the concrete compliance scenario, at now = 0. -/
def scenarioDocuments : List DocumentR :=
  [{ entityId := 10, entityType := .VEHICLE, isVerified := true, expiryDate := some 1000 },
   { entityId := 11, entityType := .VEHICLE, isVerified := true, expiryDate := some (-1000) }]

/-- JavaScript whitespace characters relevant to String.prototype.trim
(restricted to the ASCII ones; the zone and city strings of the repository
are ASCII). -/
def isJSWhitespace (c : Char) : Bool :=
  c == ' ' || c == '\t' || c == '\n' || c == '\r'

/-- String.prototype.trim, as a kernel-computable function on the
character list. -/
def jsTrim (s : String) : String :=
  String.mk (((s.data.dropWhile isJSWhitespace).reverse.dropWhile isJSWhitespace).reverse)

/-- String.prototype.toLowerCase, as a kernel-computable character map. -/
def jsLower (s : String) : String :=
  String.mk (s.data.map Char.toLower)

namespace VendorController

/-- The operatingArea object of a registration request or a vendor record:
city, a zones array, and the legacy singular zone field that
registerLocalVendor also reads; each may be absent. -/
structure OperatingAreaJS where
  city : Option String
  zones : Option (List String)
  zone : Option String
deriving DecidableEq

/-- The defensive city normalization of registerLocalVendor:
(operatingArea.city or empty).toLowerCase().trim(). -/
def normalizeCity (c : Option String) : String :=
  jsTrim (jsLower (c.getD ("")))

/-- The zone list registerLocalVendor reads:
operatingArea.zones, or a singleton of operatingArea.zone, or empty. -/
def localZonesJS (a : OperatingAreaJS) : List String :=
  match a.zones with
  | some zs => zs
  | none =>
    match a.zone with
    | some z => [z]
    | none => []

/-- Outcome of the operating-area section of registerLocalVendor
(src/controllers/vendorController.js, the city comparison and the zone
validation): the 400 city-mismatch response, the 400 zone response, or
fall-through to the remaining registration steps. -/
inductive LocalRegResult where
  | cityMismatch
  | zoneInvalid
  | passed
deriving DecidableEq

/-- The operating-area gate of registerLocalVendor: reject when either
normalized city is empty or they differ; otherwise require some local zone
to occur among the normalized parent zones (Array.prototype.some), and
reject otherwise. -/
def registerLocalVendorCheck (localArea parentArea : OperatingAreaJS) : LocalRegResult :=
  let localCity := normalizeCity localArea.city
  let parentCity := normalizeCity parentArea.city
  if localCity == ("") || parentCity == ("") || localCity != parentCity then
    .cityMismatch
  else
    let localZones := localZonesJS localArea
    let parentZones := parentArea.zones.getD []
    let isZoneValid := localZones.any (fun zone =>
      (parentZones.map (fun z => jsTrim (jsLower z))).contains (jsTrim (jsLower zone)))
    if isZoneValid then .passed else .zoneInvalid

/-- The city precondition of a successful local-vendor registration: both
normalized cities nonempty and equal. -/
def CityOk (l p : OperatingAreaJS) : Prop :=
  normalizeCity l.city ≠ ("") ∧ normalizeCity p.city ≠ ("") ∧
    normalizeCity l.city = normalizeCity p.city

/-- The parent CITY vendor area of the registration scenario. -/
def metroParentArea : OperatingAreaJS :=
  { city := some ("Metropolis"), zones := some [("ZoneA"), ("ZoneB")], zone := none }

/-- A local-vendor area whose city does not match the parent. -/
def otherCityArea : OperatingAreaJS :=
  { city := some ("OtherCity"), zones := some [("ZoneA")], zone := none }

/-- A local-vendor area matching the parent city with a parent zone. -/
def metroLocalArea : OperatingAreaJS :=
  { city := some ("Metropolis"), zones := some [("ZoneA")], zone := none }

/-- A local-vendor area matching the parent city whose zones are not a
subset of the parent zones, though one of them matches. -/
def zoneMismatchArea : OperatingAreaJS :=
  { city := some ("Metropolis"), zones := some [("ZoneA"), ("ZoneX")], zone := none }

end VendorController

/-- The driver and vehicle collections the assignment and delete handlers
read and write. -/
structure FleetState where
  drivers : List DriverR
  vehicles : List VehicleR
deriving DecidableEq

/-- Outcome of an assignment or delete handler: the 200 success response,
a 404, or a 400. -/
inductive HandlerResult where
  | ok
  | notFound (msg : String)
  | badRequest (msg : String)
deriving DecidableEq

namespace DriverController

/-- assignVehicleToDriver of src/controllers/driverController.js: find the
driver scoped to the requesting vendor (404 otherwise), find the vehicle
likewise (404), reject with 400 if the vehicle is assigned to another
driver, then if the driver is assigned to another vehicle, and otherwise
save both updated records. -/
def assignVehicleToDriver (st : FleetState) (reqVendor driverId vehicleId : Nat) :
    HandlerResult × FleetState :=
  match st.drivers.find? (fun d => d.id == driverId && d.vendor == reqVendor) with
  | none => (.notFound ("Driver not found"), st)
  | some driver =>
    match st.vehicles.find? (fun v => v.id == vehicleId && v.vendor == reqVendor) with
    | none => (.notFound ("Vehicle not found"), st)
    | some vehicle =>
      if vehicle.assignedDriver.isSome && vehicle.assignedDriver != some driverId then
        (.badRequest ("Vehicle is already assigned to another driver"), st)
      else if driver.assignedVehicle.isSome && driver.assignedVehicle != some vehicleId then
        (.badRequest ("Driver is already assigned to another vehicle"), st)
      else
        (.ok,
          { drivers := st.drivers.map (fun d =>
              if d.id == driverId then { d with assignedVehicle := some vehicleId } else d)
            vehicles := st.vehicles.map (fun v =>
              if v.id == vehicleId then { v with assignedDriver := some driverId } else v) })

/-- deleteDriver of src/controllers/driverController.js: findOneAndDelete
scoped to the requesting vendor (404 when absent), then, if the deleted
driver was assigned to a vehicle, null that vehicle assignedDriver. -/
def deleteDriver (st : FleetState) (reqVendor driverId : Nat) : HandlerResult × FleetState :=
  match st.drivers.find? (fun d => d.id == driverId && d.vendor == reqVendor) with
  | none => (.notFound ("Driver not found"), st)
  | some driver =>
    let remaining := st.drivers.eraseP (fun d => d.id == driverId && d.vendor == reqVendor)
    let vehicles2 :=
      match driver.assignedVehicle with
      | some vid => st.vehicles.map (fun v =>
          if v.id == vid then { v with assignedDriver := none } else v)
      | none => st.vehicles
    (.ok, { drivers := remaining, vehicles := vehicles2 })

end DriverController

namespace VehicleController

/-- assignDriverToVehicle of the vehicle controller: find the vehicle
scoped to the requesting vendor (404), find the driver (404), reject with
400 if the driver is assigned to another vehicle, then if the vehicle is
assigned to another driver, and otherwise save both updated records. -/
def assignDriverToVehicle (st : FleetState) (reqVendor vehicleId driverId : Nat) :
    HandlerResult × FleetState :=
  match st.vehicles.find? (fun v => v.id == vehicleId && v.vendor == reqVendor) with
  | none => (.notFound ("Vehicle not found"), st)
  | some vehicle =>
    match st.drivers.find? (fun d => d.id == driverId && d.vendor == reqVendor) with
    | none => (.notFound ("Driver not found"), st)
    | some driver =>
      if driver.assignedVehicle.isSome && driver.assignedVehicle != some vehicleId then
        (.badRequest ("Driver is already assigned to another vehicle."), st)
      else if vehicle.assignedDriver.isSome && vehicle.assignedDriver != some driverId then
        (.badRequest ("Vehicle is already assigned to another driver."), st)
      else
        (.ok,
          { drivers := st.drivers.map (fun d =>
              if d.id == driverId then { d with assignedVehicle := some vehicleId } else d)
            vehicles := st.vehicles.map (fun v =>
              if v.id == vehicleId then { v with assignedDriver := some driverId } else v) })

/-- deleteVehicle of the vehicle controller: findByIdAndDelete (404 when
absent) followed only by cache invalidation; the driver collection is
never touched. -/
def deleteVehicle (st : FleetState) (vehicleId : Nat) : HandlerResult × FleetState :=
  match st.vehicles.find? (fun v => v.id == vehicleId) with
  | none => (.notFound ("Vehicle not found"), st)
  | some _ =>
    (.ok, { st with vehicles := st.vehicles.eraseP (fun v => v.id == vehicleId) })

end VehicleController

/-- The bidirectional assignment invariant of the data model: a driver
assigned to a vehicle is that vehicle assigned driver, and conversely. -/
def Bidirectional (st : FleetState) : Prop :=
  (∀ d ∈ st.drivers, ∀ vid ∈ d.assignedVehicle.toList,
     ∃ v ∈ st.vehicles, v.id = vid ∧ v.assignedDriver = some d.id) ∧
  (∀ v ∈ st.vehicles, ∀ did ∈ v.assignedDriver.toList,
     ∃ d ∈ st.drivers, d.id = did ∧ d.assignedVehicle = some v.id)

/-- Well-formed fleet state: unique driver ids, unique vehicle ids, and
bidirectional assignments (which, with uniqueness, forbids two drivers
referencing the same vehicle and conversely). -/
def WFFleet (st : FleetState) : Prop :=
  (st.drivers.map (fun d => d.id)).Nodup ∧
    (st.vehicles.map (fun v => v.id)).Nodup ∧ Bidirectional st

instance (st : FleetState) : Decidable (Bidirectional st) := by
  unfold Bidirectional
  infer_instance

instance (st : FleetState) : Decidable (WFFleet st) := by
  unfold WFFleet
  infer_instance

/-- A small well-formed state: one unassigned driver and one unassigned
vehicle of the same vendor. -/
def assignScenarioState : FleetState :=
  { drivers := [{ id := 1, vendor := 1, assignedVehicle := none }]
    vehicles := [{ id := 10, vendor := 1, assignedDriver := none }] }

/-- A state in which driver 1 and vehicle 10 are mutually assigned. -/
def mutualAssignedState : FleetState :=
  { drivers := [{ id := 1, vendor := 1, assignedVehicle := some 10 }]
    vehicles := [{ id := 10, vendor := 1, assignedDriver := some 1 }] }

/-- The Vendor.find({ parentVendor: vendorId }) query of getAllSubVendors. -/
def children (store : List Vendor) (vendorId : Nat) : List Vendor :=
  store.filter (fun v => v.parentVendor == some vendorId)

/-- The loop body of getAllSubVendors: for each direct sub-vendor push the
sub-vendor and then, recursively, all of its sub-vendors; the recursive
call is abstracted as g. A none from g propagates (the budgeted recursion
ran out). -/
def collectSubVendors (g : Nat → Option (List Vendor)) : List Vendor → Option (List Vendor)
  | [] => some []
  | subVendor :: rest =>
    match g subVendor.id, collectSubVendors g rest with
    | some nested, some tailAcc => some (subVendor :: (nested ++ tailAcc))
    | _, _ => none

/-- getAllSubVendors of src/services/vendorHierarchyService.js, with an
explicit fuel bounding the recursion depth: the source recursion has no
depth bound or visited set, so the embedding returns none when fuel runs
out; a run of the source terminates exactly when some fuel suffices. -/
def getAllSubVendorsFueled (store : List Vendor) : Nat → Nat → Option (List Vendor)
  | 0, _ => none
  | fuel + 1, vendorId =>
    collectSubVendors (getAllSubVendorsFueled store fuel) (children store vendorId)

/-- Termination of the source recursion on a given store and vendor: some
recursion-depth budget returns a result. -/
def Terminates (store : List Vendor) (vendorId : Nat) : Prop :=
  ∃ fuel r, getAllSubVendorsFueled store fuel vendorId = some r

/-- x is a transitive descendant record of root: reachable by following
parentVendor pointers up to root. -/
inductive IsDescendant (store : List Vendor) : Nat → Vendor → Prop where
  | direct : ∀ {root : Nat} {x : Vendor}, x ∈ store → x.parentVendor = some root →
      IsDescendant store root x
  | step : ∀ {root : Nat} {c x : Vendor}, c ∈ store → c.parentVendor = some root →
      IsDescendant store c.id x → IsDescendant store root x

/-- The id-level child relation: some stored vendor with id c has
parentVendor p. -/
def childStep (store : List Vendor) (p c : Nat) : Prop :=
  ∃ v ∈ store, v.id = c ∧ v.parentVendor = some p

/-- Acyclicity of the parent-pointer graph, witnessed by a rank function
that strictly decreases from parent to child. -/
def rankDecreasing (store : List Vendor) (rank : Nat → Nat) : Bool :=
  store.all (fun v =>
    match v.parentVendor with
    | none => true
    | some pid => rank v.id < rank pid)

/-- A store whose single vendor is its own parent: the cyclic reference
the claim says the recursion survives. -/
def cyclicStore : List Vendor :=
  [{ id := 1, vendorType := .CITY, parentVendor := some 1 }]

/-- The 4-level scenario tree: SUPER 1 over CITY 2 over SUB 3 and
LOCAL 4. -/
def scenarioTree : List Vendor :=
  [{ id := 1, vendorType := .SUPER, parentVendor := none },
   { id := 2, vendorType := .CITY, parentVendor := some 1 },
   { id := 3, vendorType := .SUB, parentVendor := some 2 },
   { id := 4, vendorType := .LOCAL, parentVendor := some 2 }]

/-- A rank function witnessing acyclicity of the scenario tree. -/
def scenarioRank : Nat → Nat := fun i => 5 - i

/-- The Redis key for a cached vendor hierarchy. -/
def hierarchyKey (vendorId : Nat) : String :=
  "vendor_hierarchy_" ++ toString vendorId

/-- The template string for a parentVendor reference: a present ObjectId
prints as the id, a null prints as null. -/
def hierarchyKeyOfRef : Option Nat → String
  | some i => hierarchyKey i
  | none => "vendor_hierarchy_null"

/-- cacheService.del: Redis DEL of a single key. -/
def cacheDel {α : Type} (cache : List (String × α)) (key : String) : List (String × α) :=
  cache.filter (fun e => !(e.1 == key))

/-- cacheService.set: Redis SET, overwriting the key. -/
def cacheSet {α : Type} (cache : List (String × α)) (key : String) (v : α) :
    List (String × α) :=
  (key, v) :: cache.filter (fun e => !(e.1 == key))

/-- transferVendor of src/services/vendorHierarchyService.js: look up the
vendor and the new parent (throw when either is missing), re-validate the
pairing, assign vendor.parentVendor = newParentId and save, then delete
the cache keys for vendor.parentVendor - which the preceding assignment
has already overwritten with the new parent - and for newParentId. -/
def transferVendor {α : Type} (store : List Vendor) (cache : List (String × α))
    (vendorId newParentId : Nat) :
    Except String (List Vendor × List (String × α)) :=
  match findById store vendorId, findById store newParentId with
  | some vendor, some _newParent =>
    if validateHierarchy store vendorId newParentId then
      let vendor2 : Vendor := { vendor with parentVendor := some newParentId }
      let store2 := store.map (fun v => if v.id == vendorId then vendor2 else v)
      let cache2 := cacheDel cache (hierarchyKeyOfRef vendor2.parentVendor)
      let cache3 := cacheDel cache2 (hierarchyKey newParentId)
      .ok (store2, cache3)
    else .error ("Invalid vendor hierarchy")
  | _, _ => .error ("Vendor or parent not found")

/-- A store for the transfer scenario: two CITY vendors and a SUB vendor
under the first. -/
def transferStore : List Vendor :=
  [{ id := 1, vendorType := .CITY, parentVendor := none },
   { id := 2, vendorType := .CITY, parentVendor := none },
   { id := 3, vendorType := .SUB, parentVendor := some 1 }]

/-- A cache holding hierarchy entries for both the old parent 1 and the
new parent 2. -/
def transferCache : List (String × Unit) :=
  [(hierarchyKey 1, Unit.unit), (hierarchyKey 2, Unit.unit)]

/-- The transfer store after re-parenting vendor 3 under vendor 2. -/
def transferredStore : List Vendor :=
  [{ id := 1, vendorType := .CITY, parentVendor := none },
   { id := 2, vendorType := .CITY, parentVendor := none },
   { id := 3, vendorType := .SUB, parentVendor := some 2 }]

/-- A node of the hierarchy tree buildVendorHierarchy constructs: the
vendor id, its type and the child nodes (the name field of the source
record is read by nothing the claims mention, so it is omitted here like
the other unused Vendor fields). -/
inductive HierTree where
  | node (id : Nat) (vendorType : VendorType) (children : List HierTree)

/-- buildVendorHierarchy of the cache service: look up the vendor (null
when missing), then branch on its type: a SUPER node recursively builds
its CITY children, a CITY node recursively builds its SUB children and
appends its LOCAL children as leaves, every other type is a leaf. The
type-directed recursion descends SUPER to CITY to SUB, so a fuel of 4
always suffices. -/
def buildVendorHierarchy (store : List Vendor) : Nat → Nat → Option HierTree
  | 0, _ => none
  | fuel + 1, vendorId =>
    match findById store vendorId with
    | none => none
    | some vendor =>
      let childNodes : List HierTree :=
        if vendor.vendorType = .SUPER then
          (store.filter (fun v => v.parentVendor == some vendorId &&
            v.vendorType == .CITY)).filterMap
            (fun cityVendor => buildVendorHierarchy store fuel cityVendor.id)
        else if vendor.vendorType = .CITY then
          ((store.filter (fun v => v.parentVendor == some vendorId &&
            v.vendorType == .SUB)).filterMap
            (fun subVendor => buildVendorHierarchy store fuel subVendor.id)) ++
          ((store.filter (fun v => v.parentVendor == some vendorId &&
            v.vendorType == .LOCAL)).map
            (fun localVendor => HierTree.node localVendor.id localVendor.vendorType []))
        else []
      some (.node vendorId vendor.vendorType childNodes)

/-- cacheVendorHierarchy of the cache service: build the hierarchy, store
it under the vendor key (600 second TTL), and return it. -/
def cacheVendorHierarchy (store : List Vendor)
    (cache : List (String × Option HierTree)) (vendorId : Nat) :
    Option HierTree × List (String × Option HierTree) :=
  let key := hierarchyKey vendorId
  let hierarchy := buildVendorHierarchy store 4 vendorId
  (hierarchy, cacheSet cache key hierarchy)

/-- A JavaScript Promise that has settled to a value: the object the
un-awaited cacheService.get call evaluates to. -/
structure JSPromise (α : Type) where
  resolvedValue : α

/-- Truthiness of a Promise object: a Promise is an object, so it is
truthy whatever it resolves to. -/
def promiseTruthy {α : Type} (_p : JSPromise α) : Bool := true

/-- cacheService.get: the value stored under the key, or null when the key
is absent (a stored null also reads back as null). -/
def cacheServiceGet (cache : List (String × Option HierTree)) (key : String) :
    Option HierTree :=
  match cache.find? (fun e => e.1 == key) with
  | none => none
  | some e => e.2

/-- getVendorHierarchy of src/services/vendorHierarchyService.js: the
cacheService.get call is not awaited, so the truthiness test sees the
Promise object, which is always truthy; the function then returns that
promise, which the async machinery resolves to the get result for the
caller. The else branch, the compute-and-cache path, is kept in the
embedding as written but is unreachable. The Bool records whether
cacheVendorHierarchy was invoked. -/
def getVendorHierarchy (store : List Vendor)
    (cache : List (String × Option HierTree)) (vendorId : Nat) :
    Option HierTree × List (String × Option HierTree) × Bool :=
  let cachedHierarchy : JSPromise (Option HierTree) :=
    { resolvedValue := cacheServiceGet cache (hierarchyKey vendorId) }
  if promiseTruthy cachedHierarchy then
    (cachedHierarchy.resolvedValue, cache, false)
  else
    let result := cacheVendorHierarchy store cache vendorId
    (result.1, result.2, true)

/-- C1 counterexample: the claim counts five permitted pairs and twenty
rejected combinations, but the switch in validateHierarchy accepts exactly
four of the twenty-five type pairs (SUPER to CITY, CITY to SUB, CITY to
LOCAL, SUB to LOCAL), so the count of five is false. -/
theorem C1_counterexample :
    ¬ ((allTypePairs.filter (fun pc => validateHierarchyTypes pc.1 pc.2)).length = 5) := by
  decide

/-- C1 (amended): validateHierarchy returns true exactly when both vendors
exist and the (parentType, childType) pair is one of the four permitted
pairs SUPER to CITY, CITY to SUB, CITY to LOCAL, SUB to LOCAL; every other
combination of the five vendor types is rejected (4 of the 25 pairs are
accepted, the other 21 rejected), and a missing vendor on either side
yields false. -/
theorem C1_validateHierarchy_pairs :
    (∀ store childId parentId,
      validateHierarchy store childId parentId = true ↔
        ∃ child parent, findById store childId = some child ∧
          findById store parentId = some parent ∧
          validateHierarchyTypes parent.vendorType child.vendorType = true) ∧
    (∀ pt ct, validateHierarchyTypes pt ct = true ↔
      ((pt, ct) = (.SUPER, .CITY) ∨ (pt, ct) = (.CITY, .SUB) ∨
       (pt, ct) = (.CITY, .LOCAL) ∨ (pt, ct) = (.SUB, .LOCAL))) ∧
    (allTypePairs.filter (fun pc => validateHierarchyTypes pc.1 pc.2)).length = 4 := by
  refine ⟨?_, ?_, by decide⟩
  · intro store childId parentId
    simp only [validateHierarchy]
    cases hc : findById store childId with
    | none => simp
    | some child =>
      cases hp : findById store parentId with
      | none => simp
      | some parent => simp
  · intro pt ct
    cases pt <;> cases ct <;> decide

/-- Characterization of isDocumentExpired as a strict comparison. -/
lemma isDocumentExpired_iff (e n : Int) :
    DocumentUtils.isDocumentExpired e n = true ↔ e < n := by
  simp [DocumentUtils.isDocumentExpired]

/-- Characterization of the 30-day expiring-soon window. -/
lemma isDocumentExpiringSoon_iff (e n : Int) :
    DocumentUtils.isDocumentExpiringSoon e n 30 = true ↔
      n < e ∧ e ≤ n + 30 * DocumentUtils.msPerDay := by
  simp only [DocumentUtils.isDocumentExpiringSoon, DocumentUtils.ceilDiv,
    DocumentUtils.msPerDay, Bool.and_eq_true, decide_eq_true_eq, gt_iff_lt]
  omega

/-- C8: isDocumentExpired is true iff the expiry date is strictly before
now; isDocumentExpiringSoon with a 30-day window is true iff the expiry
date is strictly after now and at most now plus 30 days; the two are
mutually exclusive; a date exactly 30 days ahead counts as expiring soon,
while the current instant and past dates count as neither expiring soon
(and a past date is expired, the current instant is not). -/
theorem C8_expiry_predicates :
    ∀ e n : Int,
      (DocumentUtils.isDocumentExpired e n = true ↔ e < n) ∧
      (DocumentUtils.isDocumentExpiringSoon e n 30 = true ↔
        n < e ∧ e ≤ n + 30 * DocumentUtils.msPerDay) ∧
      (¬ (DocumentUtils.isDocumentExpired e n = true ∧
          DocumentUtils.isDocumentExpiringSoon e n 30 = true)) ∧
      DocumentUtils.isDocumentExpiringSoon (n + 30 * DocumentUtils.msPerDay) n 30 = true ∧
      DocumentUtils.isDocumentExpiringSoon n n 30 = false ∧
      DocumentUtils.isDocumentExpired n n = false := by
  intro e n
  refine ⟨isDocumentExpired_iff e n, isDocumentExpiringSoon_iff e n, ?_, ?_, ?_, ?_⟩
  · rintro ⟨h1, h2⟩
    rw [isDocumentExpired_iff] at h1
    rw [isDocumentExpiringSoon_iff] at h2
    omega
  · rw [isDocumentExpiringSoon_iff]
    simp only [DocumentUtils.msPerDay]
    omega
  · rw [Bool.eq_false_iff, Ne, isDocumentExpiringSoon_iff]
    omega
  · rw [Bool.eq_false_iff, Ne, isDocumentExpired_iff]
    omega

/-- Splitting a list by a Bool predicate and its negation counts every
element exactly once. -/
lemma length_filter_add_length_filter_not {α : Type} (l : List α) (p : α → Bool) :
    (l.filter p).length + (l.filter (fun a => !(p a))).length = l.length := by
  induction l with
  | nil => rfl
  | cons a t ih =>
    cases h : p a <;> simp [List.filter_cons, h] <;> omega

/-- C6: the service predicate isEntityCompliant holds iff the entity has
at least one attached document and every attached document is verified
and unexpired; an entity with zero attached documents is never compliant
there; the legacy per-entity check of vendorController.getComplianceReports
instead reports an entity with an empty documents object as compliant by
vacuous truth. -/
theorem C6_zero_document_compliance :
    (∀ entityId documents now,
      DocumentService.isEntityCompliant entityId documents now = true ↔
        ((documents.filter (fun d => d.entityId == entityId)) ≠ [] ∧
         ∀ d ∈ documents.filter (fun d => d.entityId == entityId),
           d.isVerified = true ∧ DocumentService.isDocumentExpired d now = false)) ∧
    (∀ entityId now (documents : List DocumentR),
      (∀ d ∈ documents, d.entityId ≠ entityId) →
        DocumentService.isEntityCompliant entityId documents now = false) ∧
    (∀ now, VendorController.legacyEntityCompliant [] now = true) := by
  refine ⟨?_, ?_, fun now => rfl⟩
  · intro entityId documents now
    simp only [DocumentService.isEntityCompliant, Bool.and_eq_true, decide_eq_true_eq,
      List.all_eq_true, Bool.not_eq_true', gt_iff_lt, List.length_pos]
  · intro entityId now documents h
    have he : documents.filter (fun d => d.entityId == entityId) = [] := by
      rw [List.filter_eq_nil_iff]
      intro d hd
      simpa using h d hd
    simp [DocumentService.isEntityCompliant, he]

/-- C7: the vendor compliance report partitions the vendor vehicles and
drivers, so compliant plus nonCompliant equals total in both groups, and
on the concrete two-vehicle scenario (one fully verified and unexpired,
one with an expired document) it returns total 2, compliant 1,
nonCompliant 1 for vehicles. -/
theorem C7_compliance_report_partition :
    (∀ vehicles drivers documents vendorId now,
      (DocumentService.getVendorComplianceReport vehicles drivers documents vendorId now).vehicles.compliant +
        (DocumentService.getVendorComplianceReport vehicles drivers documents vendorId now).vehicles.nonCompliant =
        (DocumentService.getVendorComplianceReport vehicles drivers documents vendorId now).vehicles.total ∧
      (DocumentService.getVendorComplianceReport vehicles drivers documents vendorId now).drivers.compliant +
        (DocumentService.getVendorComplianceReport vehicles drivers documents vendorId now).drivers.nonCompliant =
        (DocumentService.getVendorComplianceReport vehicles drivers documents vendorId now).drivers.total) ∧
    DocumentService.getVendorComplianceReport scenarioVehicles [] scenarioDocuments 1 0 =
      { vehicles := { total := 2, compliant := 1, nonCompliant := 1 }
        drivers := { total := 0, compliant := 0, nonCompliant := 0 } } := by
  refine ⟨?_, by decide⟩
  intro vehicles drivers documents vendorId now
  constructor <;>
    exact length_filter_add_length_filter_not _ _

namespace VendorController

/-- The Bool city condition of the code is the negation of CityOk. -/
lemma cityCond_iff (l p : OperatingAreaJS) :
    (normalizeCity l.city == ("") || normalizeCity p.city == ("") ||
      normalizeCity l.city != normalizeCity p.city) = true ↔ ¬ CityOk l p := by
  simp only [Bool.or_eq_true, beq_iff_eq, bne_iff_ne, CityOk, not_and_or, not_not, ne_eq]
  tauto

end VendorController

/-- C9 counterexample: a local vendor whose zones are not a subset of the
parent CITY zones (ZoneX is not a parent zone) still passes the
registration gate, because the code uses Array.prototype.some rather than
a subset check; so acceptance does not imply the zone-subset condition the
claim states. -/
theorem C9_counterexample :
    VendorController.registerLocalVendorCheck VendorController.zoneMismatchArea
      VendorController.metroParentArea = .passed ∧
    ¬ (∀ z ∈ VendorController.localZonesJS VendorController.zoneMismatchArea,
        z ∈ (VendorController.metroParentArea.zones.getD [])) := by
  constructor <;> decide

/-- C9 (amended): the registerLocalVendor operating-area gate passes iff
both normalized cities are nonempty and equal and at least one local zone
occurs (case-insensitively, trimmed) among the parent zones — not a
subset condition; it reports a city mismatch iff the city condition
fails; on the concrete scenario the OtherCity child is rejected with a
city mismatch and the Metropolis child with a parent zone is accepted. -/
theorem C9_registerLocalVendor_gate :
    (∀ l p, VendorController.registerLocalVendorCheck l p = .passed ↔
      (VendorController.CityOk l p ∧ ∃ z ∈ VendorController.localZonesJS l,
        jsTrim (jsLower z) ∈ (p.zones.getD []).map (fun s => jsTrim (jsLower s)))) ∧
    (∀ l p, VendorController.registerLocalVendorCheck l p = .cityMismatch ↔
      ¬ VendorController.CityOk l p) ∧
    VendorController.registerLocalVendorCheck VendorController.otherCityArea
      VendorController.metroParentArea = .cityMismatch ∧
    VendorController.registerLocalVendorCheck VendorController.metroLocalArea
      VendorController.metroParentArea = .passed := by
  refine ⟨?_, ?_, by decide, by decide⟩
  · intro l p
    simp only [VendorController.registerLocalVendorCheck]
    by_cases h : (VendorController.normalizeCity l.city == ("") ||
        VendorController.normalizeCity p.city == ("") ||
        VendorController.normalizeCity l.city != VendorController.normalizeCity p.city) = true
    · rw [if_pos h]
      rw [VendorController.cityCond_iff] at h
      constructor
      · intro hc
        exact absurd hc (by decide)
      · rintro ⟨hcity, -⟩
        exact absurd hcity h
    · rw [if_neg h]
      have hcity : VendorController.CityOk l p := by
        rw [VendorController.cityCond_iff] at h
        exact not_not.mp h
      by_cases hz : (VendorController.localZonesJS l).any (fun zone =>
          ((p.zones.getD []).map (fun z => jsTrim (jsLower z))).contains
            (jsTrim (jsLower zone))) = true
      · rw [if_pos hz]
        simp only [List.any_eq_true, List.elem_iff] at hz
        obtain ⟨z, hzl, hzm⟩ := hz
        exact ⟨fun _ => ⟨hcity, z, hzl, by simpa using hzm⟩, fun _ => rfl⟩
      · rw [if_neg hz]
        simp only [List.any_eq_true, List.elem_iff] at hz
        constructor
        · intro hc
          exact absurd hc (by decide)
        · rintro ⟨-, z, hzl, hzm⟩
          exact absurd ⟨z, hzl, by simpa using hzm⟩ hz
  · intro l p
    simp only [VendorController.registerLocalVendorCheck]
    by_cases h : (VendorController.normalizeCity l.city == ("") ||
        VendorController.normalizeCity p.city == ("") ||
        VendorController.normalizeCity l.city != VendorController.normalizeCity p.city) = true
    · rw [if_pos h]
      rw [VendorController.cityCond_iff] at h
      exact ⟨fun _ => h, fun _ => rfl⟩
    · rw [if_neg h]
      rw [VendorController.cityCond_iff, not_not] at h
      constructor
      · intro hc
        split at hc <;> exact absurd hc (by decide)
      · intro hc
        exact absurd h hc

/-- The negation of the busy guard of the assignment handlers: the pointer
is empty or already the target. -/
lemma option_guard {o : Option Nat} {i : Nat}
    (h : ¬ (o.isSome && o != some i) = true) : o = none ∨ o = some i := by
  cases o with
  | none => exact Or.inl rfl
  | some j =>
    right
    simp only [Option.isSome_some, Bool.true_and, bne_iff_ne, Ne, not_not] at h
    exact h

/-- Members of a list with nodup images agree when their images agree. -/
lemma mem_eq_of_nodup_map {α β : Type} {f : α → β} {l : List α}
    (h : (l.map f).Nodup) {x y : α} (hx : x ∈ l) (hy : y ∈ l) (hf : f x = f y) : x = y := by
  induction l with
  | nil => cases hx
  | cons a t ih =>
    rw [List.map_cons, List.nodup_cons] at h
    rcases List.mem_cons.mp hx with rfl | hx2 <;>
      rcases List.mem_cons.mp hy with rfl | hy2
    · rfl
    · exact absurd (hf ▸ List.mem_map_of_mem f hy2) h.1
    · exact absurd (hf ▸ List.mem_map_of_mem f hx2) h.1
    · exact ih h.2 hx2 hy2

/-- The successful assignment update (set driver.assignedVehicle and
vehicle.assignedDriver to each other) preserves well-formedness whenever
the two records are present and neither is busy with a different partner.
Both assignment handlers reach exactly this update after their guards. -/
lemma assign_update_preserves (st : FleetState) (driverId vehicleId : Nat)
    (driver : DriverR) (vehicle : VehicleR)
    (hdmem : driver ∈ st.drivers) (hdid : driver.id = driverId)
    (hvmem : vehicle ∈ st.vehicles) (hvid : vehicle.id = vehicleId)
    (hvfree : vehicle.assignedDriver = none ∨ vehicle.assignedDriver = some driverId)
    (hdfree : driver.assignedVehicle = none ∨ driver.assignedVehicle = some vehicleId)
    (hwf : WFFleet st) :
    WFFleet
      { drivers := st.drivers.map (fun d =>
          if d.id == driverId then { d with assignedVehicle := some vehicleId } else d)
        vehicles := st.vehicles.map (fun v =>
          if v.id == vehicleId then { v with assignedDriver := some driverId } else v) } := by
  obtain ⟨hnd, hnv, hbd, hbv⟩ := hwf
  have hidf : ∀ d : DriverR,
      ((if d.id == driverId then { d with assignedVehicle := some vehicleId } else d) :
        DriverR).id = d.id := by
    intro d
    by_cases h : (d.id == driverId) = true <;> simp [h]
  have hidg : ∀ v : VehicleR,
      ((if v.id == vehicleId then { v with assignedDriver := some driverId } else v) :
        VehicleR).id = v.id := by
    intro v
    by_cases h : (v.id == vehicleId) = true <;> simp [h]
  refine ⟨?_, ?_, ?_, ?_⟩
  · rw [List.map_map]
    have heq : st.drivers.map ((fun d : DriverR => d.id) ∘ fun d =>
        if d.id == driverId then { d with assignedVehicle := some vehicleId } else d) =
        st.drivers.map (fun d => d.id) :=
      List.map_eq_map_iff.mpr (fun d _ => hidf d)
    rw [heq]
    exact hnd
  · rw [List.map_map]
    have heq : st.vehicles.map ((fun v : VehicleR => v.id) ∘ fun v =>
        if v.id == vehicleId then { v with assignedDriver := some driverId } else v) =
        st.vehicles.map (fun v => v.id) :=
      List.map_eq_map_iff.mpr (fun v _ => hidg v)
    rw [heq]
    exact hnv
  · intro d2 hd2 vid hvid2
    obtain ⟨d0, hd0, rfl⟩ := List.mem_map.mp hd2
    by_cases hc : (d0.id == driverId) = true
    · rw [if_pos hc] at hvid2 ⊢
      simp only [Option.toList_some, List.mem_singleton] at hvid2
      refine ⟨(if vehicle.id == vehicleId then
          { vehicle with assignedDriver := some driverId } else vehicle),
        List.mem_map_of_mem _ hvmem, ?_⟩
      rw [if_pos (by simp [hvid])]
      exact ⟨by simp [hvid, hvid2], by simp [beq_iff_eq.mp hc]⟩
    · rw [if_neg hc] at hvid2 ⊢
      simp only [Option.mem_toList, Option.mem_def] at hvid2
      obtain ⟨v0, hv0, hv0id, hv0drv⟩ := hbd d0 hd0 vid (by simp [hvid2])
      have hv0ne : (v0.id == vehicleId) = false := by
        by_contra hcc
        rw [Bool.not_eq_false] at hcc
        have hveq : v0 = vehicle :=
          mem_eq_of_nodup_map hnv hv0 hvmem (by rw [hvid, beq_iff_eq.mp hcc])
        rcases hvfree with hfree | hfree
        · rw [hveq, hfree] at hv0drv
          cases hv0drv
        · rw [hveq, hfree] at hv0drv
          have : d0.id = driverId := by
            injection hv0drv with h
            exact h.symm
          simp [this] at hc
      refine ⟨(if v0.id == vehicleId then
          { v0 with assignedDriver := some driverId } else v0),
        List.mem_map_of_mem _ hv0, ?_⟩
      rw [if_neg (by simp [hv0ne])]
      exact ⟨hv0id, hv0drv⟩
  · intro v2 hv2 did hdid2
    obtain ⟨v0, hv0, rfl⟩ := List.mem_map.mp hv2
    by_cases hc : (v0.id == vehicleId) = true
    · rw [if_pos hc] at hdid2 ⊢
      simp only [Option.toList_some, List.mem_singleton] at hdid2
      refine ⟨(if driver.id == driverId then
          { driver with assignedVehicle := some vehicleId } else driver),
        List.mem_map_of_mem _ hdmem, ?_⟩
      rw [if_pos (by simp [hdid])]
      exact ⟨by simp [hdid, hdid2], by simp [beq_iff_eq.mp hc]⟩
    · rw [if_neg hc] at hdid2 ⊢
      simp only [Option.mem_toList, Option.mem_def] at hdid2
      obtain ⟨d0, hd0, hd0id, hd0veh⟩ := hbv v0 hv0 did (by simp [hdid2])
      have hd0ne : (d0.id == driverId) = false := by
        by_contra hcc
        rw [Bool.not_eq_false] at hcc
        have hdeq : d0 = driver :=
          mem_eq_of_nodup_map hnd hd0 hdmem (by rw [hdid, beq_iff_eq.mp hcc])
        rcases hdfree with hfree | hfree
        · rw [hdeq, hfree] at hd0veh
          cases hd0veh
        · rw [hdeq, hfree] at hd0veh
          have : v0.id = vehicleId := by
            injection hd0veh with h
            exact h.symm
          simp [this] at hc
      refine ⟨(if d0.id == driverId then
          { d0 with assignedVehicle := some vehicleId } else d0),
        List.mem_map_of_mem _ hd0, ?_⟩
      rw [if_neg (by simp [hd0ne])]
      exact ⟨hd0id, hd0veh⟩

/-- C4: when assignVehicleToDriver succeeds, the driver record carries
assignedVehicle = vehicle and the vehicle record carries assignedDriver =
driver; both handlers reject with a 400 response and an unchanged state
whenever the driver is already assigned to a different vehicle or the
vehicle to a different driver; and from any well-formed state (unique ids,
bidirectional assignments, hence no sharing of a partner) either handler
leaves the state well-formed. -/
theorem C4_assignment_invariant (st : FleetState) (reqVendor driverId vehicleId : Nat) :
    ((DriverController.assignVehicleToDriver st reqVendor driverId vehicleId).1 = .ok →
      (∀ d ∈ (DriverController.assignVehicleToDriver st reqVendor driverId vehicleId).2.drivers,
         d.id = driverId → d.assignedVehicle = some vehicleId) ∧
      (∀ v ∈ (DriverController.assignVehicleToDriver st reqVendor driverId vehicleId).2.vehicles,
         v.id = vehicleId → v.assignedDriver = some driverId)) ∧
    (∀ driver vehicle,
      st.drivers.find? (fun d => d.id == driverId && d.vendor == reqVendor) = some driver →
      st.vehicles.find? (fun v => v.id == vehicleId && v.vendor == reqVendor) = some vehicle →
      ((driver.assignedVehicle ≠ none ∧ driver.assignedVehicle ≠ some vehicleId) ∨
       (vehicle.assignedDriver ≠ none ∧ vehicle.assignedDriver ≠ some driverId)) →
      (∃ m, DriverController.assignVehicleToDriver st reqVendor driverId vehicleId =
        (.badRequest m, st)) ∧
      (∃ m, VehicleController.assignDriverToVehicle st reqVendor vehicleId driverId =
        (.badRequest m, st))) ∧
    (WFFleet st →
      WFFleet (DriverController.assignVehicleToDriver st reqVendor driverId vehicleId).2 ∧
      WFFleet (VehicleController.assignDriverToVehicle st reqVendor vehicleId driverId).2) := by
  refine ⟨?_, ?_, ?_⟩
  · intro hok
    cases hfd : st.drivers.find? (fun d => d.id == driverId && d.vendor == reqVendor) with
    | none =>
      rw [show DriverController.assignVehicleToDriver st reqVendor driverId vehicleId =
        (.notFound ("Driver not found"), st) from by
          simp only [DriverController.assignVehicleToDriver, hfd]] at hok
      cases hok
    | some driver =>
      cases hfv : st.vehicles.find? (fun v => v.id == vehicleId && v.vendor == reqVendor) with
      | none =>
        rw [show DriverController.assignVehicleToDriver st reqVendor driverId vehicleId =
          (.notFound ("Vehicle not found"), st) from by
            simp only [DriverController.assignVehicleToDriver, hfd, hfv]] at hok
        cases hok
      | some vehicle =>
        by_cases h1 : (vehicle.assignedDriver.isSome &&
            vehicle.assignedDriver != some driverId) = true
        · rw [show DriverController.assignVehicleToDriver st reqVendor driverId vehicleId =
            (.badRequest ("Vehicle is already assigned to another driver"), st) from by
              simp only [DriverController.assignVehicleToDriver, hfd, hfv]
              rw [if_pos h1]] at hok
          cases hok
        · by_cases h2 : (driver.assignedVehicle.isSome &&
              driver.assignedVehicle != some vehicleId) = true
          · rw [show DriverController.assignVehicleToDriver st reqVendor driverId vehicleId =
              (.badRequest ("Driver is already assigned to another vehicle"), st) from by
                simp only [DriverController.assignVehicleToDriver, hfd, hfv]
                rw [if_neg h1, if_pos h2]] at hok
            cases hok
          · have hstate : DriverController.assignVehicleToDriver st reqVendor driverId vehicleId =
                (.ok,
                  { drivers := st.drivers.map (fun d =>
                      if d.id == driverId then { d with assignedVehicle := some vehicleId } else d)
                    vehicles := st.vehicles.map (fun v =>
                      if v.id == vehicleId then { v with assignedDriver := some driverId } else v) }) := by
              simp only [DriverController.assignVehicleToDriver, hfd, hfv]
              rw [if_neg h1, if_neg h2]
            rw [hstate]
            constructor
            · intro d hd hdid
              obtain ⟨d0, _, rfl⟩ := List.mem_map.mp hd
              by_cases hc : (d0.id == driverId) = true
              · rw [if_pos hc]
              · rw [if_neg hc] at hdid ⊢
                exact absurd hdid (by simpa using hc)
            · intro v hv hvid
              obtain ⟨v0, _, rfl⟩ := List.mem_map.mp hv
              by_cases hc : (v0.id == vehicleId) = true
              · rw [if_pos hc]
              · rw [if_neg hc] at hvid ⊢
                exact absurd hvid (by simpa using hc)
  · intro driver vehicle hfd hfv hbusy
    constructor
    · simp only [DriverController.assignVehicleToDriver, hfd, hfv]
      by_cases h1 : (vehicle.assignedDriver.isSome &&
          vehicle.assignedDriver != some driverId) = true
      · rw [if_pos h1]
        exact ⟨_, rfl⟩
      · rw [if_neg h1]
        have hvfree := option_guard h1
        have h2 : (driver.assignedVehicle.isSome &&
            driver.assignedVehicle != some vehicleId) = true := by
          rcases hbusy with ⟨ha, hb⟩ | ⟨ha, hb⟩
          · cases ho : driver.assignedVehicle with
            | none => exact absurd ho ha
            | some j =>
              simp only [ho, Option.isSome_some, Bool.true_and, bne_iff_ne, Ne,
                decide_eq_true_eq]
              intro hj
              exact hb (ho.trans hj)
          · rcases hvfree with hf | hf
            · exact absurd hf ha
            · exact absurd hf hb
        rw [if_pos h2]
        exact ⟨_, rfl⟩
    · simp only [VehicleController.assignDriverToVehicle, hfd, hfv]
      by_cases h1 : (driver.assignedVehicle.isSome &&
          driver.assignedVehicle != some vehicleId) = true
      · rw [if_pos h1]
        exact ⟨_, rfl⟩
      · rw [if_neg h1]
        have hdfree := option_guard h1
        have h2 : (vehicle.assignedDriver.isSome &&
            vehicle.assignedDriver != some driverId) = true := by
          rcases hbusy with ⟨ha, hb⟩ | ⟨ha, hb⟩
          · rcases hdfree with hf | hf
            · exact absurd hf ha
            · exact absurd hf hb
          · cases ho : vehicle.assignedDriver with
            | none => exact absurd ho ha
            | some j =>
              simp only [ho, Option.isSome_some, Bool.true_and, bne_iff_ne, Ne,
                decide_eq_true_eq]
              intro hj
              exact hb (ho.trans hj)
        rw [if_pos h2]
        exact ⟨_, rfl⟩
  · intro hwf
    constructor
    · simp only [DriverController.assignVehicleToDriver]
      cases hfd : st.drivers.find? (fun d => d.id == driverId && d.vendor == reqVendor) with
      | none => exact hwf
      | some driver =>
        cases hfv : st.vehicles.find? (fun v => v.id == vehicleId && v.vendor == reqVendor) with
        | none => exact hwf
        | some vehicle =>
          dsimp only
          by_cases h1 : (vehicle.assignedDriver.isSome &&
              vehicle.assignedDriver != some driverId) = true
          · rw [if_pos h1]
            exact hwf
          · rw [if_neg h1]
            by_cases h2 : (driver.assignedVehicle.isSome &&
                driver.assignedVehicle != some vehicleId) = true
            · rw [if_pos h2]
              exact hwf
            · rw [if_neg h2]
              have hdp := List.find?_some hfd
              have hvp := List.find?_some hfv
              simp only [Bool.and_eq_true, beq_iff_eq] at hdp hvp
              exact assign_update_preserves st driverId vehicleId driver vehicle
                (List.mem_of_find?_eq_some hfd) hdp.1
                (List.mem_of_find?_eq_some hfv) hvp.1
                (option_guard h1) (option_guard h2) hwf
    · simp only [VehicleController.assignDriverToVehicle]
      cases hfv : st.vehicles.find? (fun v => v.id == vehicleId && v.vendor == reqVendor) with
      | none => exact hwf
      | some vehicle =>
        cases hfd : st.drivers.find? (fun d => d.id == driverId && d.vendor == reqVendor) with
        | none => exact hwf
        | some driver =>
          dsimp only
          by_cases h2 : (driver.assignedVehicle.isSome &&
              driver.assignedVehicle != some vehicleId) = true
          · rw [if_pos h2]
            exact hwf
          · rw [if_neg h2]
            by_cases h1 : (vehicle.assignedDriver.isSome &&
                vehicle.assignedDriver != some driverId) = true
            · rw [if_pos h1]
              exact hwf
            · rw [if_neg h1]
              have hdp := List.find?_some hfd
              have hvp := List.find?_some hfv
              simp only [Bool.and_eq_true, beq_iff_eq] at hdp hvp
              exact assign_update_preserves st driverId vehicleId driver vehicle
                (List.mem_of_find?_eq_some hfd) hdp.1
                (List.mem_of_find?_eq_some hfv) hvp.1
                (option_guard h1) (option_guard h2) hwf

/-- C4 witness: the invariant-preservation component of the assignment
theorem evaluated on the concrete one-driver one-vehicle state. -/

theorem C4_assignment_invariant_witness :
    WFFleet assignScenarioState ∧
    (WFFleet (DriverController.assignVehicleToDriver assignScenarioState 1 1 10).2 ∧
     WFFleet (VehicleController.assignDriverToVehicle assignScenarioState 1 10 1).2) :=
  ⟨by decide, (C4_assignment_invariant assignScenarioState 1 1 10).2.2 (by decide)⟩

/-- C5 counterexample: deleting vehicle 10, which is assigned to driver 1,
succeeds but leaves driver 1 still pointing at the deleted vehicle —
deleteVehicle never clears the partner pointer, contradicting the claim
that deletion always clears it on both sides. -/
theorem C5_counterexample :
    (VehicleController.deleteVehicle mutualAssignedState 10).1 = .ok ∧
    (VehicleController.deleteVehicle mutualAssignedState 10).2.vehicles = [] ∧
    (∀ d ∈ (VehicleController.deleteVehicle mutualAssignedState 10).2.drivers,
      d.assignedVehicle = some 10) := by
  refine ⟨by decide, by decide, by decide⟩

/-- C5 (amended): deleteDriver succeeds on the found driver and nulls the
assignedDriver pointer of the vehicle that driver was assigned to, whereas
deleteVehicle leaves the driver collection — including a dangling
assignedVehicle pointer — entirely unchanged. -/
theorem C5_delete_partner_clearing (st : FleetState) (reqVendor driverId : Nat)
    (driver : DriverR)
    (hfind : st.drivers.find? (fun d => d.id == driverId && d.vendor == reqVendor) =
      some driver) :
    ((DriverController.deleteDriver st reqVendor driverId).1 = .ok ∧
     ∀ vid, driver.assignedVehicle = some vid →
       ∀ v ∈ (DriverController.deleteDriver st reqVendor driverId).2.vehicles,
         v.id = vid → v.assignedDriver = none) ∧
    (∀ st2 vehicleId, (VehicleController.deleteVehicle st2 vehicleId).2.drivers =
      st2.drivers) := by
  refine ⟨⟨?_, ?_⟩, ?_⟩
  · simp only [DriverController.deleteDriver, hfind]
  · intro vid hvid v hv hid
    simp only [DriverController.deleteDriver, hfind, hvid] at hv
    obtain ⟨v0, _, rfl⟩ := List.mem_map.mp hv
    by_cases hc : (v0.id == vid) = true
    · rw [if_pos hc]
    · rw [if_neg hc] at hid ⊢
      exact absurd hid (by simpa using hc)
  · intro st2 vehicleId
    simp only [VehicleController.deleteVehicle]
    cases hf : st2.vehicles.find? (fun v => v.id == vehicleId) with
    | none => rfl
    | some v => rfl

/-- C5 witness: the amended delete theorem evaluated on the mutually
assigned one-driver one-vehicle state. -/
theorem C5_delete_partner_clearing_witness :
    mutualAssignedState.drivers.find? (fun d => d.id == 1 && d.vendor == 1) =
      some { id := 1, vendor := 1, assignedVehicle := some 10 } ∧
    (((DriverController.deleteDriver mutualAssignedState 1 1).1 = .ok ∧
      ∀ vid, ({ id := 1, vendor := 1, assignedVehicle := some 10 } :
          DriverR).assignedVehicle = some vid →
        ∀ v ∈ (DriverController.deleteDriver mutualAssignedState 1 1).2.vehicles,
          v.id = vid → v.assignedDriver = none) ∧
     (∀ st2 vehicleId, (VehicleController.deleteVehicle st2 vehicleId).2.drivers =
       st2.drivers)) :=
  ⟨by decide, C5_delete_partner_clearing mutualAssignedState 1 1
    { id := 1, vendor := 1, assignedVehicle := some 10 } (by decide)⟩

lemma children_mem {store : List Vendor} {vid : Nat} {v : Vendor} :
    v ∈ children store vid ↔ v ∈ store ∧ v.parentVendor = some vid := by
  simp [children]

lemma rankDecreasing_spec {store : List Vendor} {rank : Nat → Nat}
    (hrank : rankDecreasing store rank = true) :
    ∀ v ∈ store, ∀ pid, v.parentVendor = some pid → rank v.id < rank pid := by
  intro v hv pid hp
  have h := List.all_eq_true.mp hrank v hv
  rw [hp] at h
  simpa using h

lemma collect_mono {g g' : Nat → Option (List Vendor)}
    (h : ∀ i r, g i = some r → g' i = some r) :
    ∀ l r, collectSubVendors g l = some r → collectSubVendors g' l = some r := by
  intro l
  induction l with
  | nil => intro r hr; exact hr
  | cons sv rest ih =>
    intro r hr
    simp only [collectSubVendors] at hr ⊢
    cases hg : g sv.id with
    | none => rw [hg] at hr; simp at hr
    | some nested =>
      cases ht : collectSubVendors g rest with
      | none => rw [hg, ht] at hr; simp at hr
      | some tailAcc =>
        rw [hg, ht] at hr
        rw [h sv.id nested hg, ih tailAcc ht]
        exact hr

lemma fueled_mono {store : List Vendor} :
    ∀ fuel vid r, getAllSubVendorsFueled store fuel vid = some r →
      getAllSubVendorsFueled store (fuel + 1) vid = some r := by
  intro fuel
  induction fuel with
  | zero => intro vid r hr; simp [getAllSubVendorsFueled] at hr
  | succ n ih =>
    intro vid r hr
    simp only [getAllSubVendorsFueled] at hr ⊢
    exact collect_mono (fun i r2 h2 => ih i r2 h2) _ r hr

lemma fueled_mono_le {store : List Vendor} {fuel fuel' vid : Nat} {r : List Vendor}
    (hle : fuel ≤ fuel') (hr : getAllSubVendorsFueled store fuel vid = some r) :
    getAllSubVendorsFueled store fuel' vid = some r := by
  induction hle with
  | refl => exact hr
  | step _ ih => exact fueled_mono _ _ _ ih

lemma collect_total {g : Nat → Option (List Vendor)} :
    ∀ l : List Vendor, (∀ sv ∈ l, ∃ r, g sv.id = some r) →
      ∃ r, collectSubVendors g l = some r := by
  intro l
  induction l with
  | nil => intro _; exact ⟨[], rfl⟩
  | cons sv rest ih =>
    intro h
    obtain ⟨nested, hg⟩ := h sv (List.mem_cons_self sv rest)
    obtain ⟨tailAcc, ht⟩ := ih (fun x hx => h x (List.mem_cons_of_mem sv hx))
    exact ⟨sv :: (nested ++ tailAcc), by simp [collectSubVendors, hg, ht]⟩

lemma fueled_terminates {store : List Vendor} {rank : Nat → Nat}
    (hrank : rankDecreasing store rank = true) :
    ∀ n vid, rank vid ≤ n → ∃ r, getAllSubVendorsFueled store (n + 1) vid = some r := by
  intro n
  induction n with
  | zero =>
    intro vid hv
    refine ⟨[], ?_⟩
    have hempty : children store vid = [] := by
      simp only [children]
      rw [List.filter_eq_nil_iff]
      intro v hvm hbeq
      have hp : v.parentVendor = some vid := by simpa using hbeq
      have := rankDecreasing_spec hrank v hvm vid hp
      omega
    simp [getAllSubVendorsFueled, hempty, collectSubVendors]
  | succ n ih =>
    intro vid hv
    have htot : ∀ sv ∈ children store vid, ∃ r,
        getAllSubVendorsFueled store (n + 1) sv.id = some r := by
      intro sv hsv
      obtain ⟨hm, hp⟩ := children_mem.mp hsv
      have hlt := rankDecreasing_spec hrank sv hm vid hp
      exact ih sv.id (by omega)
    obtain ⟨r, hr⟩ := collect_total (children store vid) htot
    exact ⟨r, by simpa [getAllSubVendorsFueled] using hr⟩

lemma collect_success {g : Nat → Option (List Vendor)} :
    ∀ {l r}, collectSubVendors g l = some r → ∀ sv ∈ l, ∃ nested, g sv.id = some nested := by
  intro l
  induction l with
  | nil => intro r _ sv hsv; cases hsv
  | cons sv0 rest ih =>
    intro r hr sv hsv
    simp only [collectSubVendors] at hr
    cases hg : g sv0.id with
    | none => rw [hg] at hr; simp at hr
    | some nested =>
      cases ht : collectSubVendors g rest with
      | none => rw [hg, ht] at hr; simp at hr
      | some tailAcc =>
        rcases List.mem_cons.mp hsv with rfl | hmem
        · exact ⟨nested, hg⟩
        · exact ih ht sv hmem

lemma collect_mem {g : Nat → Option (List Vendor)} :
    ∀ {l r}, collectSubVendors g l = some r →
      ∀ x, x ∈ r ↔ ∃ sv ∈ l, x = sv ∨ ∃ nested, g sv.id = some nested ∧ x ∈ nested := by
  intro l
  induction l with
  | nil =>
    intro r hr x
    cases hr
    simp
  | cons sv0 rest ih =>
    intro r hr x
    simp only [collectSubVendors] at hr
    cases hg : g sv0.id with
    | none => rw [hg] at hr; simp at hr
    | some nested =>
      cases ht : collectSubVendors g rest with
      | none => rw [hg, ht] at hr; simp at hr
      | some tailAcc =>
        rw [hg, ht] at hr
        injection hr with hr2
        subst hr2
        constructor
        · intro hx
          rcases List.mem_cons.mp hx with rfl | hx2
          · exact ⟨x, List.mem_cons_self _ _, Or.inl rfl⟩
          · rcases List.mem_append.mp hx2 with hn | htl
            · exact ⟨sv0, List.mem_cons_self _ _, Or.inr ⟨nested, hg, hn⟩⟩
            · obtain ⟨sv, hsv, hcase⟩ := (ih ht x).mp htl
              exact ⟨sv, List.mem_cons_of_mem _ hsv, hcase⟩
        · rintro ⟨sv, hsv, hcase⟩
          rcases List.mem_cons.mp hsv with rfl | hsv2
          · rcases hcase with rfl | ⟨nested2, hg2, hxn⟩
            · exact List.mem_cons_self _ _
            · rw [hg] at hg2
              injection hg2 with hg3
              subst hg3
              exact List.mem_cons_of_mem _ (List.mem_append_left _ hxn)
          · exact List.mem_cons_of_mem _
              (List.mem_append_right _ ((ih ht x).mpr ⟨sv, hsv2, hcase⟩))

lemma isDescendant_decomp {store : List Vendor} {vid : Nat} {x : Vendor} :
    IsDescendant store vid x ↔
      ∃ sv ∈ children store vid, x = sv ∨ IsDescendant store sv.id x := by
  constructor
  · intro h
    cases h with
    | direct hx hp => exact ⟨x, children_mem.mpr ⟨hx, hp⟩, Or.inl rfl⟩
    | step hc hp hd => exact ⟨_, children_mem.mpr ⟨hc, hp⟩, Or.inr hd⟩
  · rintro ⟨sv, hsv, rfl | hd⟩
    · obtain ⟨h1, h2⟩ := children_mem.mp hsv
      exact .direct h1 h2
    · obtain ⟨h1, h2⟩ := children_mem.mp hsv
      exact .step h1 h2 hd

lemma fueled_mem {store : List Vendor} :
    ∀ fuel vid r, getAllSubVendorsFueled store fuel vid = some r →
      ∀ x, x ∈ r ↔ IsDescendant store vid x := by
  intro fuel
  induction fuel with
  | zero => intro vid r hr; simp [getAllSubVendorsFueled] at hr
  | succ n ih =>
    intro vid r hr x
    simp only [getAllSubVendorsFueled] at hr
    rw [collect_mem hr x, isDescendant_decomp]
    constructor
    · rintro ⟨sv, hsv, hcase⟩
      rcases hcase with rfl | ⟨nested, hg, hxn⟩
      · exact ⟨x, hsv, Or.inl rfl⟩
      · exact ⟨sv, hsv, Or.inr ((ih sv.id nested hg x).mp hxn)⟩
    · rintro ⟨sv, hsv, hcase⟩
      rcases hcase with rfl | hd
      · exact ⟨x, hsv, Or.inl rfl⟩
      · obtain ⟨nested, hg⟩ := collect_success hr sv hsv
        exact ⟨sv, hsv, Or.inr ⟨nested, hg, (ih sv.id nested hg x).mpr hd⟩⟩

lemma isDescendant_mem_store {store : List Vendor} {vid : Nat} {x : Vendor}
    (h : IsDescendant store vid x) : x ∈ store := by
  induction h with
  | direct hx _ => exact hx
  | step _ _ _ ih => exact ih

lemma isDescendant_transGen {store : List Vendor} {vid : Nat} {x : Vendor}
    (h : IsDescendant store vid x) :
    Relation.TransGen (childStep store) vid x.id := by
  induction h with
  | direct hx hp => exact Relation.TransGen.single ⟨_, hx, rfl, hp⟩
  | step hc hp _ ih => exact Relation.TransGen.head ⟨_, hc, rfl, hp⟩ ih

lemma childStep_rank {store : List Vendor} {rank : Nat → Nat}
    (hrank : rankDecreasing store rank = true) {p c : Nat}
    (h : childStep store p c) : rank c < rank p := by
  obtain ⟨v, hv, rfl, hp⟩ := h
  exact rankDecreasing_spec hrank v hv p hp

lemma transGen_rank {store : List Vendor} {rank : Nat → Nat}
    (hrank : rankDecreasing store rank = true) {p c : Nat}
    (h : Relation.TransGen (childStep store) p c) : rank c < rank p := by
  induction h with
  | single h1 => exact childStep_rank hrank h1
  | tail _ h2 ih => exact lt_trans (childStep_rank hrank h2) ih

lemma no_cycle {store : List Vendor} {rank : Nat → Nat}
    (hrank : rankDecreasing store rank = true) {a : Nat} :
    ¬ Relation.TransGen (childStep store) a a := by
  intro h
  exact absurd (transGen_rank hrank h) (lt_irrefl _)

lemma childStep_functional {store : List Vendor}
    (hnodup : (store.map (fun v => v.id)).Nodup) {p p2 c : Nat}
    (h1 : childStep store p c) (h2 : childStep store p2 c) : p = p2 := by
  obtain ⟨v, hv, hvc, hvp⟩ := h1
  obtain ⟨w, hw, hwc, hwp⟩ := h2
  have hvw : v = w := mem_eq_of_nodup_map hnodup hv hw (hvc.trans hwc.symm)
  rw [hvw] at hvp
  rw [hvp] at hwp
  injection hwp

lemma reflTransGen_comparable {store : List Vendor}
    (hnodup : (store.map (fun v => v.id)).Nodup) {a b c : Nat}
    (h1 : Relation.ReflTransGen (childStep store) a c)
    (h2 : Relation.ReflTransGen (childStep store) b c) :
    Relation.ReflTransGen (childStep store) a b ∨
      Relation.ReflTransGen (childStep store) b a := by
  induction h2 with
  | refl => exact Or.inl h1
  | tail h2a hstep ih =>
    rcases Relation.ReflTransGen.cases_tail h1 with heq | ⟨p, hap, hpc⟩
    · subst heq
      exact Or.inr (h2a.tail hstep)
    · have hpq := childStep_functional hnodup hpc hstep
      subst hpq
      exact ih hap

lemma sibling_no_reach {store : List Vendor} {rank : Nat → Nat}
    (hnodup : (store.map (fun v => v.id)).Nodup)
    (hrank : rankDecreasing store rank = true)
    {vid : Nat} {sv sv2 : Vendor}
    (h1 : sv ∈ store) (hp1 : sv.parentVendor = some vid)
    (h2 : sv2 ∈ store) (hp2 : sv2.parentVendor = some vid)
    (hne : sv.id ≠ sv2.id)
    (hreach : Relation.ReflTransGen (childStep store) sv.id sv2.id) : False := by
  rcases Relation.ReflTransGen.cases_tail hreach with heq | ⟨p, hsp, hstep⟩
  · exact hne heq.symm
  · have hpv : p = vid := childStep_functional hnodup hstep ⟨sv2, h2, rfl, hp2⟩
    rw [hpv] at hsp
    have hcyc : Relation.TransGen (childStep store) vid vid :=
      Relation.TransGen.head' ⟨sv, h1, rfl, hp1⟩ hsp
    exact no_cycle hrank hcyc

lemma branch_disjoint {store : List Vendor} {rank : Nat → Nat}
    (hnodup : (store.map (fun v => v.id)).Nodup)
    (hrank : rankDecreasing store rank = true)
    {vid : Nat} {sv sv2 : Vendor}
    (h1 : sv ∈ store) (hp1 : sv.parentVendor = some vid)
    (h2 : sv2 ∈ store) (hp2 : sv2.parentVendor = some vid)
    (hne : sv.id ≠ sv2.id) {i : Nat}
    (ha : Relation.ReflTransGen (childStep store) sv.id i)
    (hb : Relation.ReflTransGen (childStep store) sv2.id i) : False := by
  rcases reflTransGen_comparable hnodup ha hb with hc | hc
  · exact sibling_no_reach hnodup hrank h1 hp1 h2 hp2 hne hc
  · exact sibling_no_reach hnodup hrank h2 hp2 h1 hp1 (Ne.symm hne) hc

lemma reach_of_block {store : List Vendor} {fuel : Nat} {sv x : Vendor}
    {nested : List Vendor}
    (hg : getAllSubVendorsFueled store fuel sv.id = some nested)
    (hx : x = sv ∨ x ∈ nested) :
    Relation.ReflTransGen (childStep store) sv.id x.id := by
  rcases hx with rfl | hxn
  · exact Relation.ReflTransGen.refl
  · exact (isDescendant_transGen ((fueled_mem fuel sv.id nested hg x).mp hxn)).to_reflTransGen

lemma collect_nodup {store : List Vendor} {rank : Nat → Nat}
    (hnodup : (store.map (fun v => v.id)).Nodup)
    (hrank : rankDecreasing store rank = true)
    {fuel : Nat}
    (IH : ∀ vid r, getAllSubVendorsFueled store fuel vid = some r →
      (r.map (fun v => v.id)).Nodup)
    {vid : Nat} :
    ∀ l r, (∀ v ∈ l, v ∈ store ∧ v.parentVendor = some vid) →
      (l.map (fun v => v.id)).Nodup →
      collectSubVendors (getAllSubVendorsFueled store fuel) l = some r →
      (r.map (fun v => v.id)).Nodup := by
  intro l
  induction l with
  | nil =>
    intro r _ _ hr
    cases hr
    exact List.nodup_nil
  | cons sv rest ih =>
    intro r hl hln hr
    simp only [collectSubVendors] at hr
    cases hg : getAllSubVendorsFueled store fuel sv.id with
    | none => rw [hg] at hr; simp at hr
    | some nested =>
      cases ht : collectSubVendors (getAllSubVendorsFueled store fuel) rest with
      | none => rw [hg, ht] at hr; simp at hr
      | some tailAcc =>
        rw [hg, ht] at hr
        injection hr with hr2
        subst hr2
        rw [List.map_cons, List.nodup_cons] at hln
        obtain ⟨hsvm, hsvp⟩ := hl sv (List.mem_cons_self _ _)
        have hne : ∀ sv2 ∈ rest, sv.id ≠ sv2.id := by
          intro sv2 hsv2 heq
          exact hln.1 (heq ▸ List.mem_map_of_mem _ hsv2)
        have htail_reach : ∀ x ∈ tailAcc, ∃ sv2 ∈ rest,
            Relation.ReflTransGen (childStep store) sv2.id x.id := by
          intro x hx
          obtain ⟨sv2, hsv2, hcase⟩ := (collect_mem ht x).mp hx
          refine ⟨sv2, hsv2, ?_⟩
          rcases hcase with rfl | ⟨nested2, hg2, hxn⟩
          · exact Relation.ReflTransGen.refl
          · exact reach_of_block hg2 (Or.inr hxn)
        rw [List.map_cons, List.nodup_cons, List.map_append, List.nodup_append]
        refine ⟨?_, IH sv.id nested hg, ih tailAcc
          (fun v hv => hl v (List.mem_cons_of_mem _ hv)) hln.2 ht, ?_⟩
        · intro hmem
          rcases List.mem_append.mp hmem with hn | htl
          · obtain ⟨x, hxn, hxid⟩ := List.mem_map.mp hn
            have hdesc := (fueled_mem fuel sv.id nested hg x).mp hxn
            have htg := isDescendant_transGen hdesc
            rw [hxid] at htg
            exact no_cycle hrank htg
          · obtain ⟨x, hxt, hxid⟩ := List.mem_map.mp htl
            obtain ⟨sv2, hsv2, hreach⟩ := htail_reach x hxt
            obtain ⟨h2m, h2p⟩ := hl sv2 (List.mem_cons_of_mem _ hsv2)
            exact branch_disjoint hnodup hrank hsvm hsvp h2m h2p (hne sv2 hsv2)
              (Relation.ReflTransGen.refl) (hxid ▸ hreach)
        · intro a han hat
          obtain ⟨x, hxn, hxid⟩ := List.mem_map.mp han
          obtain ⟨y, hyt, hyid⟩ := List.mem_map.mp hat
          have hxr : Relation.ReflTransGen (childStep store) sv.id a :=
            hxid ▸ reach_of_block hg (Or.inr hxn)
          obtain ⟨sv2, hsv2, hreach⟩ := htail_reach y hyt
          obtain ⟨h2m, h2p⟩ := hl sv2 (List.mem_cons_of_mem _ hsv2)
          exact branch_disjoint hnodup hrank hsvm hsvp h2m h2p (hne sv2 hsv2)
            hxr (hyid ▸ hreach)

lemma fueled_nodup {store : List Vendor} {rank : Nat → Nat}
    (hnodup : (store.map (fun v => v.id)).Nodup)
    (hrank : rankDecreasing store rank = true) :
    ∀ fuel vid r, getAllSubVendorsFueled store fuel vid = some r →
      (r.map (fun v => v.id)).Nodup := by
  intro fuel
  induction fuel with
  | zero => intro vid r hr; simp [getAllSubVendorsFueled] at hr
  | succ n ih =>
    intro vid r hr
    simp only [getAllSubVendorsFueled] at hr
    have hcn : ((children store vid).map (fun v => v.id)).Nodup :=
      ((List.filter_sublist store).map (fun v => v.id)).nodup hnodup
    exact collect_nodup hnodup hrank ih (children store vid) r
      (fun v hv => children_mem.mp hv) hcn hr

/-- C2 (amended): on every store whose parent-pointer references are
acyclic (witnessed by a rank function) and whose ids are unique,
getAllSubVendors terminates - fuel rank(vendorId) + 1 suffices and every
larger fuel returns the same list - and returns exactly the set of
transitive descendants of vendorId with no duplicate ids; the recursion
itself has no depth limit or visited-set guard, and on a cyclic store it
does not terminate (the separate counterexample). -/
theorem C2_getAllSubVendors_correct (store : List Vendor) (rank : Nat → Nat) (vendorId : Nat)
    (hnodup : (store.map (fun v => v.id)).Nodup)
    (hrank : rankDecreasing store rank = true) :
    ∃ r, getAllSubVendorsFueled store (rank vendorId + 1) vendorId = some r ∧
      (∀ x, x ∈ r ↔ IsDescendant store vendorId x) ∧
      (r.map (fun v => v.id)).Nodup ∧
      ∀ fuel, rank vendorId + 1 ≤ fuel →
        getAllSubVendorsFueled store fuel vendorId = some r := by
  obtain ⟨r, hr⟩ := fueled_terminates hrank (rank vendorId) vendorId (Nat.le_refl _)
  exact ⟨r, hr, fueled_mem _ _ _ hr, fueled_nodup hnodup hrank _ _ _ hr,
    fun fuel hle => fueled_mono_le hle hr⟩

/-- On the cyclic store every fuel is exhausted. -/
lemma cyclic_runs_out : ∀ fuel, getAllSubVendorsFueled cyclicStore fuel 1 = none := by
  intro fuel
  induction fuel with
  | zero => rfl
  | succ n ih =>
    have hc : children cyclicStore 1 =
        [{ id := 1, vendorType := .CITY, parentVendor := some 1 }] := rfl
    simp only [getAllSubVendorsFueled, hc, collectSubVendors, ih]

/-- C2 counterexample: on a store where the parent-pointer references form
a cycle, getAllSubVendors does not terminate - no recursion budget ever
returns a result, because the code has neither a depth limit nor a
visited-set guard. -/
theorem C2_counterexample : ¬ Terminates cyclicStore 1 := by
  rintro ⟨fuel, r, hr⟩
  rw [cyclic_runs_out fuel] at hr
  cases hr

/-- C2 witness: the amended theorem evaluated on the 4-level scenario
tree. -/
theorem C2_getAllSubVendors_correct_witness :
    (scenarioTree.map (fun v => v.id)).Nodup ∧
    rankDecreasing scenarioTree scenarioRank = true ∧
    (∃ r, getAllSubVendorsFueled scenarioTree (scenarioRank 1 + 1) 1 = some r ∧
      (∀ x, x ∈ r ↔ IsDescendant scenarioTree 1 x) ∧
      (r.map (fun v => v.id)).Nodup ∧
      ∀ fuel, scenarioRank 1 + 1 ≤ fuel →
        getAllSubVendorsFueled scenarioTree fuel 1 = some r) :=
  ⟨by decide, by decide, C2_getAllSubVendors_correct scenarioTree scenarioRank 1 (by decide) (by decide)⟩

/-- C3 counterexample: transferring vendor 3 from parent 1 to parent 2
succeeds, but the resulting cache still holds the old parent key
vendor_hierarchy_1 - both deletes hit the new parent key, because the
first one reads parentVendor after it was overwritten - contradicting the
claim that both keys are absent afterwards. -/
theorem C3_counterexample :
    transferVendor transferStore transferCache 3 2 =
      .ok (transferredStore, [(hierarchyKey 1, Unit.unit)]) ∧
    hierarchyKey 1 ∈ [(hierarchyKey 1, Unit.unit)].map (fun e => e.1) := by
  constructor
  · rfl
  · exact List.mem_map_of_mem _ (List.mem_singleton_self _)

/-- C3 (amended): when transferVendor succeeds, the vendor record carries
parentVendor = newParentId and the cache entry for the new parent
hierarchy is absent, but only the new parent key is deleted (twice): every
other cache entry - in particular the old parent key, when the old parent
differs from the new one - survives. -/
theorem C3_transferVendor_cache (α : Type) (store : List Vendor)
    (cache : List (String × α)) (vendorId newParentId : Nat)
    (store2 : List Vendor) (cache2 : List (String × α))
    (h : transferVendor store cache vendorId newParentId = .ok (store2, cache2)) :
    (∃ v ∈ store2, v.id = vendorId ∧ v.parentVendor = some newParentId) ∧
    (∀ v ∈ store2, v.id = vendorId → v.parentVendor = some newParentId) ∧
    hierarchyKey newParentId ∉ cache2.map (fun e => e.1) ∧
    (∀ e ∈ cache, e.1 ≠ hierarchyKey newParentId → e ∈ cache2) := by
  cases hf1 : findById store vendorId with
  | none =>
    rw [show transferVendor store cache vendorId newParentId =
      .error ("Vendor or parent not found") from by
        simp only [transferVendor, hf1]] at h
    cases h
  | some vendor =>
    cases hf2 : findById store newParentId with
    | none =>
      rw [show transferVendor store cache vendorId newParentId =
        .error ("Vendor or parent not found") from by
          simp only [transferVendor, hf1, hf2]] at h
      cases h
    | some parent =>
      by_cases hval : validateHierarchy store vendorId newParentId = true
      · rw [show transferVendor (α := α) store cache vendorId newParentId =
          .ok (store.map (fun v => if v.id == vendorId then
              { vendor with parentVendor := some newParentId } else v),
            cacheDel (cacheDel cache (hierarchyKey newParentId))
              (hierarchyKey newParentId)) from by
            simp only [transferVendor, hf1, hf2]
            rw [if_pos hval]
            rfl] at h
        injection h with hpair
        injection hpair with hstore hcache
        subst hstore
        subst hcache
        have hvid : vendor.id = vendorId := by
          have := List.find?_some hf1
          simpa using this
        refine ⟨?_, ?_, ?_, ?_⟩
        · refine ⟨(if vendor.id == vendorId then
            { vendor with parentVendor := some newParentId } else vendor),
            List.mem_map_of_mem _ (List.mem_of_find?_eq_some hf1), ?_⟩
          rw [if_pos (by simp [hvid])]
          exact ⟨hvid, rfl⟩
        · intro v hv hvid2
          obtain ⟨v0, _, rfl⟩ := List.mem_map.mp hv
          by_cases hc : (v0.id == vendorId) = true
          · rw [if_pos hc]
          · rw [if_neg hc] at hvid2 ⊢
            exact absurd hvid2 (by simpa using hc)
        · intro hmem
          obtain ⟨e, he, heq⟩ := List.mem_map.mp hmem
          rw [cacheDel, List.mem_filter] at he
          rw [heq] at he
          simp at he
        · intro e he hne
          simp only [cacheDel, List.mem_filter]
          refine ⟨⟨he, ?_⟩, ?_⟩ <;> simpa using hne
      · rw [show transferVendor store cache vendorId newParentId =
          .error ("Invalid vendor hierarchy") from by
            simp only [transferVendor, hf1, hf2]
            rw [if_neg hval]] at h
        cases h

/-- C3 witness: the amended transfer theorem evaluated on the concrete
two-parent scenario. -/
theorem C3_transferVendor_cache_witness :
    transferVendor transferStore transferCache 3 2 =
      .ok (transferredStore, [(hierarchyKey 1, Unit.unit)]) ∧
    ((∃ v ∈ transferredStore, v.id = 3 ∧ v.parentVendor = some 2) ∧
     (∀ v ∈ transferredStore, v.id = 3 → v.parentVendor = some 2) ∧
     hierarchyKey 2 ∉ ([(hierarchyKey 1, Unit.unit)]).map (fun e => e.1) ∧
     (∀ e ∈ transferCache, e.1 ≠ hierarchyKey 2 → e ∈ [(hierarchyKey 1, Unit.unit)])) :=
  ⟨rfl, C3_transferVendor_cache Unit transferStore transferCache 3 2
    transferredStore [(hierarchyKey 1, Unit.unit)] rfl⟩

/-- C10: on any cache without the vendor hierarchy key, getVendorHierarchy
returns the cache-miss value null, never invokes cacheVendorHierarchy, and
leaves the cache unchanged: the compute-on-miss branch is unreachable
because the un-awaited promise is truthy. -/
theorem C10_getVendorHierarchy_miss (store : List Vendor)
    (cache : List (String × Option HierTree)) (vendorId : Nat)
    (h : hierarchyKey vendorId ∉ cache.map (fun e => e.1)) :
    getVendorHierarchy store cache vendorId = (none, cache, false) := by
  have hget : cacheServiceGet cache (hierarchyKey vendorId) = none := by
    simp only [cacheServiceGet]
    cases hf : cache.find? (fun e => e.1 == hierarchyKey vendorId) with
    | none => rfl
    | some e =>
      have hmem := List.mem_of_find?_eq_some hf
      have hp := List.find?_some hf
      rw [beq_iff_eq] at hp
      exact absurd (hp ▸ List.mem_map_of_mem (fun e => e.1) hmem) h
  simp [getVendorHierarchy, promiseTruthy, hget]

/-- C10 witness: a lookup on the scenario tree with only an unrelated
cached entry returns null, does not compute, and keeps the cache. -/
theorem C10_getVendorHierarchy_miss_witness :
    hierarchyKey 1 ∉
      ([(hierarchyKey 2, (none : Option HierTree))]).map (fun e => e.1) ∧
    getVendorHierarchy scenarioTree [(hierarchyKey 2, (none : Option HierTree))] 1 =
      (none, [(hierarchyKey 2, (none : Option HierTree))], false) :=
  ⟨by decide, C10_getVendorHierarchy_miss scenarioTree
    [(hierarchyKey 2, (none : Option HierTree))] 1 (by decide)⟩

end FleetSpec
